import Mathlib

/-!
Shallow embedding of `src/nodes/Aws/ECS/AwsEcs.node.ts` (the n8n AWS ECS
node).  The file has three pieces of logic:

* `methods.loadOptions.getClusters` — one `ListClusters` call, result mapped
  to dropdown options;
* `methods.loadOptions.getServices` — a `ListServices` call followed by a
  cursor-pagination `while` loop;
* `execute` — a dispatch over the `operation` parameter that builds a
  `DescribeServices` or `UpdateService` request body and relays the response.

The external collaborator `awsApiRequest` is modelled as an environment: a
list of results (one per call, consumed in call order), each either an
`Except.error e` (the promise rejected with `e`) or an `Except.ok` response
object.  Each embedded function returns, besides its value, the list (or
count) of request bodies it issued, so that theorems can speak about the
requests the code sends.  JavaScript pitfalls are kept: reading `.map` off an
`undefined` field is a `TypeError` (`RunError.jsTypeError`), and exhausting
the environment while the code would still make a call is the model artifact
`RunError.noResponse`.
-/

namespace AwsEcsNode

/-- An `INodePropertyOptions` entry as built by both loadOptions callbacks. -/
structure NodePropertyOption where
  name : String
  value : String
deriving DecidableEq, Repr

/-- Both callbacks build options as `\x7b name: arn, value: arn \x7d`. -/
def mkOption (arn : String) : NodePropertyOption :=
  { name := arn, value := arn }

/-- A parsed `ListClusters` response: both fields are optional in the AWS
JSON, hence `Option`. -/
structure ListClustersResponse where
  clusterArns : Option (List String)
  nextToken : Option String
deriving DecidableEq, Repr

/-- A parsed `ListServices` response. -/
structure ListServicesResponse where
  serviceArns : Option (List String)
  nextToken : Option String
deriving DecidableEq, Repr

/-- The request body `\x7b cluster, maxResults, nextToken? \x7d` sent by
`getServices` (the object is mutated in place in the source; here every
issued state of it is recorded). -/
structure ListServicesBody where
  cluster : String
  maxResults : Nat
  nextToken : Option String
deriving DecidableEq, Repr

/-- How a run of an embedded function can fail. `api e` propagates a
rejection of `awsApiRequest` (payload `e` unchanged); `jsTypeError` is the
JavaScript `TypeError` from calling `.map` on an `undefined` field;
`noResponse` is the model artifact for an environment with fewer responses
than the code requests. -/
inductive RunError (ε : Type) where
  | api (e : ε)
  | jsTypeError
  | noResponse
deriving DecidableEq, Repr

/-- `loadOptions.getClusters`: issues a single `ListClusters` request (body
`\x7b\x7d`) and maps `responseData.clusterArns` to options.  There is no
pagination: only the head of the environment is consumed, and the returned
`Nat` counts the requests issued (always 1). -/
def getClusters {ε : Type} (resps : List (Except ε ListClustersResponse)) :
    Nat × Except (RunError ε) (List NodePropertyOption) :=
  match resps with
  | [] => (1, Except.error RunError.noResponse)
  | Except.error e :: _ => (1, Except.error (RunError.api e))
  | Except.ok r :: _ =>
    match r.clusterArns with
    | none => (1, Except.error RunError.jsTypeError)
    | some arns => (1, Except.ok (arns.map mkOption))

/-- The `while (true)` pagination loop of `getServices`, entered with the
`nextToken` of the previous response.  Each iteration sends the body with the
current token, appends `additionalData.serviceArns.map(...)` (unguarded:
`undefined` is a `TypeError`), and breaks when the response carries no
`nextToken`. -/
def servicesLoop {ε : Type} (cluster tok : String) :
    List (Except ε ListServicesResponse) →
      List ListServicesBody × Except (RunError ε) (List NodePropertyOption)
  | [] => ([⟨cluster, 50, some tok⟩], Except.error RunError.noResponse)
  | Except.error e :: _ => ([⟨cluster, 50, some tok⟩], Except.error (RunError.api e))
  | Except.ok r :: rs =>
    let req : ListServicesBody := ⟨cluster, 50, some tok⟩
    match r.serviceArns with
    | none => ([req], Except.error RunError.jsTypeError)
    | some arns =>
      match r.nextToken with
      | none => ([req], Except.ok (arns.map mkOption))
      | some t =>
        let rest := servicesLoop cluster t rs
        (req :: rest.1,
          match rest.2 with
          | Except.error err => Except.error err
          | Except.ok opts => Except.ok (arns.map mkOption ++ opts))

/-- `loadOptions.getServices`: returns `[]` at once for a falsy (empty)
`clusterName`; otherwise issues the first `ListServices` request, returns
`[]` if the first response has no `serviceArns` field, and runs the
pagination loop when the first response carries a `nextToken`. -/
def getServices {ε : Type} (clusterName : String)
    (resps : List (Except ε ListServicesResponse)) :
    List ListServicesBody × Except (RunError ε) (List NodePropertyOption) :=
  if clusterName = "" then ([], Except.ok [])
  else
    match resps with
    | [] => ([⟨clusterName, 50, none⟩], Except.error RunError.noResponse)
    | Except.error e :: _ =>
      ([⟨clusterName, 50, none⟩], Except.error (RunError.api e))
    | Except.ok r :: rs =>
      let req : ListServicesBody := ⟨clusterName, 50, none⟩
      match r.serviceArns with
      | none => ([req], Except.ok [])
      | some arns =>
        match r.nextToken with
        | none => ([req], Except.ok (arns.map mkOption))
        | some t =>
          let rest := servicesLoop clusterName t rs
          (req :: rest.1,
            match rest.2 with
            | Except.error err => Except.error err
            | Except.ok opts => Except.ok (arns.map mkOption ++ opts))

/-- The node parameters `execute` reads through `getNodeParameter` (all at
item index 0).  `clusterName` and `serviceName` are read as strings,
`desiredCount` as a number (an `Int` here; only its sign is ever tested). -/
structure ExecParams where
  operation : String
  clusterName : String
  serviceName : String
  serviceNames : String
  desiredCount : Int
deriving DecidableEq, Repr

/-- The two request-body object literals `execute` can build.  An
`updateService` body always carries `forceNewDeployment` and carries
`desiredCount` only when the source added the field. -/
inductive AwsBody where
  | describeServices (cluster : String) (services : List String)
  | updateService (cluster : String) (service : String)
      (forceNewDeployment : Bool) (desiredCount : Option Int)
deriving DecidableEq, Repr

/-- One `awsApiRequest.call(this, 'ecs', 'POST', '/', body, headers)` as
issued by `execute`; `amzTarget` is the `X-Amz-Target` header. -/
structure AwsRequest where
  service : String
  method : String
  path : String
  amzTarget : String
  body : AwsBody
deriving DecidableEq, Repr

/-- One `INodeExecutionData` output item: `\x7b json, pairedItem: \x7b item \x7d \x7d`. -/
structure NodeExecutionData (ρ : Type) where
  json : ρ
  pairedItem : Nat
deriving DecidableEq, Repr

/-- JavaScript `s.split(',')` on the underlying character list: cut at every
comma, keeping empty segments; the empty string yields one empty segment. -/
def splitComma : List Char → List (List Char)
  | [] => [[]]
  | c :: cs =>
    if c = ',' then [] :: splitComma cs
    else
      match splitComma cs with
      | [] => [[c]]
      | w :: ws => (c :: w) :: ws

/-- JavaScript `s.trim()`: drop whitespace from both ends (ASCII whitespace
here; JS also strips some Unicode spaces, irrelevant to these claims). -/
def trimChars (cs : List Char) : List Char :=
  ((cs.dropWhile Char.isWhitespace).reverse.dropWhile Char.isWhitespace).reverse

/-- `serviceNamesRaw.split(',').map(s => s.trim()).filter(s => s)`: an empty
string is falsy, so `filter(s => s)` drops exactly the empty segments. -/
def splitServices (raw : String) : List String :=
  (((splitComma raw.toList).map (fun cs => String.mk (trimChars cs))).filter
    (fun s => s ≠ ""))

def describeTarget : String := "AmazonEC2ContainerServiceV20141113.DescribeServices"

def updateTarget : String := "AmazonEC2ContainerServiceV20141113.UpdateService"

/-- Spec-side inverse of comma-splitting: joining segments back with a
comma.  Used to state that `splitComma` produces exactly the comma-separated
segments of its input, in order. -/
def joinComma : List (List Char) → List Char
  | [] => []
  | [w] => w
  | w :: ws => w ++ ',' :: joinComma ws

/-- `execute`.  Its single `awsApiRequest` result is the environment
`resp : Except ε (Option ρ)`: `Except.error e` models a rejected promise
(propagated unchanged), `Except.ok none` a falsy resolved value (the
`if (responseData)` guard skips the push), `Except.ok (some r)` a truthy
response object `r`.  The first component lists the requests issued; the
second is the value of the returned promise, `[returnData]`. -/
def execute {ε ρ : Type} (p : ExecParams) (resp : Except ε (Option ρ)) :
    List AwsRequest × Except ε (List (List (NodeExecutionData ρ))) :=
  if p.operation = "describeServices" then
    let services := splitServices p.serviceNames
    let req : AwsRequest :=
      ⟨"ecs", "POST", "/", describeTarget,
        AwsBody.describeServices p.clusterName services⟩
    match resp with
    | Except.error e => ([req], Except.error e)
    | Except.ok none => ([req], Except.ok [[]])
    | Except.ok (some r) => ([req], Except.ok [[⟨r, 0⟩]])
  else if p.operation = "forceNewDeployment" then
    let req : AwsRequest :=
      ⟨"ecs", "POST", "/", updateTarget,
        AwsBody.updateService p.clusterName p.serviceName true
          (if 0 < p.desiredCount then some p.desiredCount else none)⟩
    match resp with
    | Except.error e => ([req], Except.error e)
    | Except.ok none => ([req], Except.ok [[]])
    | Except.ok (some r) => ([req], Except.ok [[⟨r, 0⟩]])
  else ([], Except.ok [[]])

/-! ### Spec-side helpers for stating the pagination claims -/

/-- A response sequence forming one complete pagination run: every page has
`serviceArns`, every page but the last carries a `nextToken`, and the last
does not. -/
def chainOk : List ListServicesResponse → Bool
  | [] => false
  | [p] => p.serviceArns.isSome && p.nextToken.isNone
  | p :: q :: rs => p.serviceArns.isSome && p.nextToken.isSome && chainOk (q :: rs)

/-- Pages that keep the pagination loop going: `serviceArns` present and a
`nextToken` present. -/
def continuing : List ListServicesResponse → Bool
  | [] => true
  | p :: ps => p.serviceArns.isSome && p.nextToken.isSome && continuing ps

/-- The request bodies `getServices` is expected to issue against the pages
`ps`, starting from token `tok`: one request per page, each subsequent one
carrying the previous response's `nextToken`. -/
def expectedReqs (c : String) : Option String → List ListServicesResponse → List ListServicesBody
  | _, [] => []
  | tok, p :: ps => ⟨c, 50, tok⟩ :: expectedReqs c p.nextToken ps

/-- Concatenation, in page order, of the `serviceArns` of every page. -/
def allArns (ps : List ListServicesResponse) : List String :=
  (ps.map (fun p => p.serviceArns.getD [])).flatten

/-- A sequence of independent `execute` runs, one output per run.  The
source class keeps no state between calls, so a session is just the list of
single-run results. -/
def runSession {ε ρ : Type} (calls : List (ExecParams × Except ε (Option ρ))) :
    List (List AwsRequest × Except ε (List (List (NodeExecutionData ρ)))) :=
  calls.map (fun c => execute c.1 c.2)

/-! ### Helper lemmas -/

theorem allArns_cons (p : ListServicesResponse) (ps : List ListServicesResponse) :
    allArns (p :: ps) = p.serviceArns.getD [] ++ allArns ps := by
  simp [allArns]

/-- The pagination loop, run against a complete chain of pages (plus any
unused tail of the environment), issues one request per page, threads the
tokens, and accumulates every page's options in order. -/
theorem servicesLoop_chain {ε : Type} (c t : String) (ps : List ListServicesResponse)
    (extra : List (Except ε ListServicesResponse)) (h : chainOk ps = true) :
    servicesLoop c t (ps.map Except.ok ++ extra) =
      (expectedReqs c (some t) ps, Except.ok ((allArns ps).map mkOption)) := by
  induction ps generalizing t with
  | nil => simp [chainOk] at h
  | cons p ps ih =>
    cases ps with
    | nil =>
      obtain ⟨pa, pt⟩ := p
      rw [chainOk] at h
      simp only [Bool.and_eq_true, Option.isSome_iff_exists, Option.isNone_iff_eq_none] at h
      obtain ⟨⟨arns, harns⟩, hn⟩ := h
      subst harns hn
      simp [servicesLoop, expectedReqs, allArns]
    | cons q ps =>
      obtain ⟨pa, pt⟩ := p
      rw [chainOk] at h
      simp only [Bool.and_eq_true, Option.isSome_iff_exists] at h
      obtain ⟨⟨⟨arns, harns⟩, tok, htok⟩, hchain⟩ := h
      subst harns htok
      have ih2 := ih tok hchain
      have key : servicesLoop c t
          (List.map Except.ok
            ((⟨some arns, some tok⟩ : ListServicesResponse) :: q :: ps) ++ extra) =
          (⟨c, 50, some t⟩ :: (servicesLoop c tok (List.map Except.ok (q :: ps) ++ extra)).1,
            match (servicesLoop c tok (List.map Except.ok (q :: ps) ++ extra)).2 with
            | Except.error err => Except.error err
            | Except.ok opts => Except.ok (arns.map mkOption ++ opts)) := rfl
      rw [key, ih2]
      simp [expectedReqs, allArns_cons, List.map_append]

/-- `getServices` on a non-empty cluster name against a complete chain of
pages: full characterisation of requests and result. -/
theorem getServices_chain {ε : Type} (c : String) (ps : List ListServicesResponse)
    (extra : List (Except ε ListServicesResponse)) (hc : c ≠ "")
    (h : chainOk ps = true) :
    getServices c (ps.map Except.ok ++ extra) =
      (expectedReqs c none ps, Except.ok ((allArns ps).map mkOption)) := by
  cases ps with
  | nil => simp [chainOk] at h
  | cons p ps =>
    cases ps with
    | nil =>
      obtain ⟨pa, pt⟩ := p
      rw [chainOk] at h
      simp only [Bool.and_eq_true, Option.isSome_iff_exists, Option.isNone_iff_eq_none] at h
      obtain ⟨⟨arns, harns⟩, hn⟩ := h
      subst harns hn
      simp [getServices, expectedReqs, allArns, hc]
    | cons q ps =>
      obtain ⟨pa, pt⟩ := p
      rw [chainOk] at h
      simp only [Bool.and_eq_true, Option.isSome_iff_exists] at h
      obtain ⟨⟨⟨arns, harns⟩, tok, htok⟩, hchain⟩ := h
      subst harns htok
      have hloop := servicesLoop_chain c tok (q :: ps) extra hchain
      simp only [List.map_cons, List.cons_append] at hloop
      simp [getServices, expectedReqs, hc, hloop, allArns_cons, List.map_append]

/-- Requests issued by `execute`, for every operation value and every
environment: a single `DescribeServices` or `UpdateService` request for the
two dispatched names, none otherwise. -/
theorem execute_fst {ε ρ : Type} (p : ExecParams) (resp : Except ε (Option ρ)) :
    (execute p resp).1 =
      if p.operation = "describeServices" then
        [⟨"ecs", "POST", "/", describeTarget,
          AwsBody.describeServices p.clusterName (splitServices p.serviceNames)⟩]
      else if p.operation = "forceNewDeployment" then
        [⟨"ecs", "POST", "/", updateTarget,
          AwsBody.updateService p.clusterName p.serviceName true
            (if 0 < p.desiredCount then some p.desiredCount else none)⟩]
      else [] := by
  rcases resp with e | (_ | r) <;>
    by_cases h1 : p.operation = "describeServices" <;>
    by_cases h2 : p.operation = "forceNewDeployment" <;>
    simp [execute, h1, h2]

/-- If the loop is running (every earlier page had `serviceArns` and a
`nextToken`) and the next call rejects with `e`, the whole run fails with
exactly that error. -/
theorem servicesLoop_error {ε : Type} (c t : String) (e : ε)
    (good : List ListServicesResponse) (rest : List (Except ε ListServicesResponse))
    (h : continuing good = true) :
    (servicesLoop c t (good.map Except.ok ++ Except.error e :: rest)).2 =
      Except.error (RunError.api e) := by
  induction good generalizing t with
  | nil => rfl
  | cons p good ih =>
    obtain ⟨pa, pt⟩ := p
    rw [continuing] at h
    simp only [Bool.and_eq_true, Option.isSome_iff_exists] at h
    obtain ⟨⟨⟨arns, harns⟩, tok, htok⟩, hgood⟩ := h
    subst harns htok
    have key : (servicesLoop c t
        (List.map Except.ok
          ((⟨some arns, some tok⟩ : ListServicesResponse) :: good) ++
            Except.error e :: rest)).2 =
        match (servicesLoop c tok (good.map Except.ok ++ Except.error e :: rest)).2 with
        | Except.error err => Except.error err
        | Except.ok opts => Except.ok (arns.map mkOption ++ opts) := rfl
    rw [key, ih tok hgood]

/-- `expectedReqs` lists one request per page. -/
theorem expectedReqs_length (c : String) (tok : Option String)
    (ps : List ListServicesResponse) :
    (expectedReqs c tok ps).length = ps.length := by
  induction ps generalizing tok with
  | nil => rfl
  | cons p ps ih => simp [expectedReqs, ih]

/-- `splitComma` never returns an empty segment list. -/
theorem splitComma_ne_nil (cs : List Char) : splitComma cs ≠ [] := by
  cases cs with
  | nil => simp [splitComma]
  | cons c cs =>
    rw [splitComma]
    by_cases hc : c = ','
    · simp [hc]
    · rw [if_neg hc]
      cases h : splitComma cs <;> simp

theorem splitComma_cons_of_ne {c : Char} (cs : List Char) (hc : ¬c = ',') :
    ∃ w ws, splitComma cs = w :: ws ∧ splitComma (c :: cs) = (c :: w) :: ws := by
  cases h : splitComma cs with
  | nil => exact absurd h (splitComma_ne_nil cs)
  | cons w ws =>
    refine ⟨w, ws, rfl, ?_⟩
    rw [splitComma, if_neg hc, h]

/-- Joining the segments of `splitComma` with commas restores the input:
the segments are exactly the comma-separated pieces, in order. -/
theorem joinComma_splitComma (cs : List Char) : joinComma (splitComma cs) = cs := by
  induction cs with
  | nil => rfl
  | cons c cs ih =>
    by_cases hc : c = ','
    · subst hc
      rw [splitComma, if_pos rfl]
      obtain ⟨w, ws, hws⟩ : ∃ w ws, splitComma cs = w :: ws := by
        cases h : splitComma cs with
        | nil => exact absurd h (splitComma_ne_nil cs)
        | cons w ws => exact ⟨w, ws, rfl⟩
      rw [hws]
      rw [hws] at ih
      show [] ++ ',' :: joinComma (w :: ws) = ',' :: cs
      rw [ih]
      rfl
    · obtain ⟨w, ws, hws, hsplit⟩ := splitComma_cons_of_ne cs hc
      rw [hsplit]
      rw [hws] at ih
      cases ws with
      | nil =>
        show c :: w = c :: cs
        rw [show w = cs from ih]
      | cons w2 ws =>
        show (c :: w) ++ ',' :: joinComma (w2 :: ws) = c :: cs
        rw [List.cons_append]
        congr 1

/-- No segment produced by `splitComma` contains a comma. -/
theorem splitComma_no_comma (cs : List Char) : ∀ seg ∈ splitComma cs, ',' ∉ seg := by
  induction cs with
  | nil =>
    intro seg hseg
    have h : seg = [] := by simpa [splitComma] using hseg
    subst h
    simp
  | cons c cs ih =>
    intro seg hseg
    by_cases hc : c = ','
    · subst hc
      rw [splitComma, if_pos rfl] at hseg
      rcases List.mem_cons.mp hseg with h | h
      · subst h; simp
      · exact ih seg h
    · obtain ⟨w, ws, hws, hsplit⟩ := splitComma_cons_of_ne cs hc
      rw [hsplit] at hseg
      rcases List.mem_cons.mp hseg with h | h
      · subst h
        intro hmem
        rcases List.mem_cons.mp hmem with h1 | h1
        · exact hc h1.symm
        · exact ih w (by rw [hws]; exact List.mem_cons_self w ws) h1
      · exact ih seg (by rw [hws]; exact List.mem_cons_of_mem w h)

/-! ### Claim theorems -/

/-- Claim C1: for every complete pagination chain of `ListServices` responses
(each page has `serviceArns`, each page but the last a `nextToken`, the last
none — the termination precondition), `getServices` with a non-empty cluster
name returns the options built from the concatenation, in request order, of
every page's `serviceArns`; it issues one request per page, each subsequent
request carrying the previous response's `nextToken` (`expectedReqs`), and it
stops at the first response without a `nextToken`: any further responses the
environment could serve (`extra`) are never consumed. -/
theorem getServices_pagination {ε : Type} (c : String) (ps : List ListServicesResponse)
    (extra : List (Except ε ListServicesResponse)) (hc : c ≠ "")
    (h : chainOk ps = true) :
    getServices c (ps.map Except.ok ++ extra) =
      (expectedReqs c none ps, Except.ok ((allArns ps).map mkOption)) ∧
    getServices c (ps.map Except.ok ++ extra) = getServices c (ps.map Except.ok) := by
  have h1 := getServices_chain c ps extra hc h
  have h2 := getServices_chain (ε := ε) c ps [] hc h
  rw [List.append_nil] at h2
  exact ⟨h1, h1.trans h2.symm⟩

theorem getServices_pagination_witness :
    getServices (ε := Unit) "c"
        ([⟨some ["a1", "a2"], some "t1"⟩, ⟨some ["b1"], none⟩].map Except.ok ++
          [Except.ok ⟨some ["z"], none⟩]) =
      (expectedReqs "c" none [⟨some ["a1", "a2"], some "t1"⟩, ⟨some ["b1"], none⟩],
        Except.ok ((allArns [⟨some ["a1", "a2"], some "t1"⟩, ⟨some ["b1"], none⟩]).map mkOption)) ∧
    getServices (ε := Unit) "c"
        ([⟨some ["a1", "a2"], some "t1"⟩, ⟨some ["b1"], none⟩].map Except.ok ++
          [Except.ok ⟨some ["z"], none⟩]) =
      getServices "c" ([⟨some ["a1", "a2"], some "t1"⟩, ⟨some ["b1"], none⟩].map Except.ok) :=
  getServices_pagination "c" _ _ (by decide) rfl

/-- Claim C2 counterexample: a `ListClusters` response that carries a
`nextToken` while a second page with `clusterArns = ["arnB"]` is available.
`getClusters` issues exactly one request and its result is only the first
page's options; the second page's ARN is absent, refuting the claim that
both callbacks paginate. -/
theorem getClusters_pagination_cex :
    getClusters (ε := Unit)
        [Except.ok ⟨some ["arnA"], some "tok"⟩, Except.ok ⟨some ["arnB"], none⟩] =
      (1, Except.ok [mkOption "arnA"]) ∧
    mkOption "arnB" ∉ [mkOption "arnA"] := by
  exact ⟨rfl, by decide⟩

/-- Claim C2 (amended): only `getServices` paginates its AWS list operation
(one request per page of a complete chain); `getClusters` issues exactly one
`ListClusters` request and returns only the first response's `clusterArns`
as options, ignoring any `nextToken` and any further available pages. -/
theorem getClusters_no_pagination {ε : Type} :
    (∀ (r : ListClustersResponse) (arns : List String)
      (rest : List (Except ε ListClustersResponse)),
      r.clusterArns = some arns →
      getClusters (Except.ok r :: rest) = (1, Except.ok (arns.map mkOption))) ∧
    (∀ (c : String) (ps : List ListServicesResponse), c ≠ "" → chainOk ps = true →
      ((getServices (ε := ε) c (ps.map Except.ok)).1).length = ps.length) := by
  constructor
  · intro r arns rest hr
    simp [getClusters, hr]
  · intro c ps hc h
    have h2 := getServices_chain (ε := ε) c ps [] hc h
    rw [List.append_nil] at h2
    rw [h2]
    exact expectedReqs_length c none ps

theorem getClusters_no_pagination_witness :
    getClusters (ε := Unit)
        (Except.ok ⟨some ["arnA"], some "tok"⟩ :: [Except.ok ⟨some ["arnB"], none⟩]) =
      (1, Except.ok (["arnA"].map mkOption)) ∧
    ((getServices (ε := Unit) "c"
        ([(⟨some ["a"], some "t"⟩ : ListServicesResponse),
          ⟨some ["b"], none⟩].map Except.ok)).1).length = 2 :=
  ⟨(getClusters_no_pagination).1 _ _ _ rfl,
    (getClusters_no_pagination).2 "c" _ (by decide) rfl⟩

/-- Claim C3: `execute` dispatches over exactly the two operation names:
`describeServices` issues one `DescribeServices` request,
`forceNewDeployment` one `UpdateService` request, and any other operation
value issues no request and returns `[[]]` — a single empty output list. -/
theorem execute_dispatch {ε ρ : Type} (p : ExecParams) (resp : Except ε (Option ρ)) :
    (p.operation = "describeServices" →
      (execute p resp).1 =
        [⟨"ecs", "POST", "/", describeTarget,
          AwsBody.describeServices p.clusterName (splitServices p.serviceNames)⟩]) ∧
    (p.operation = "forceNewDeployment" →
      (execute p resp).1 =
        [⟨"ecs", "POST", "/", updateTarget,
          AwsBody.updateService p.clusterName p.serviceName true
            (if 0 < p.desiredCount then some p.desiredCount else none)⟩]) ∧
    (p.operation ≠ "describeServices" → p.operation ≠ "forceNewDeployment" →
      execute p resp = ([], Except.ok [[]])) := by
  refine ⟨fun hop => ?_, fun hop => ?_, fun h1 h2 => ?_⟩
  · rw [execute_fst, if_pos hop]
  · rw [execute_fst, if_neg (by rw [hop]; decide), if_pos hop]
  · simp [execute, h1, h2]

theorem execute_dispatch_witness :
    (execute (ε := Unit) (ρ := Unit) ⟨"describeServices", "cl", "sv", "s1,s2", 0⟩
        (Except.ok none)).1 =
      [⟨"ecs", "POST", "/", describeTarget,
        AwsBody.describeServices "cl" (splitServices "s1,s2")⟩] ∧
    (execute (ε := Unit) (ρ := Unit) ⟨"forceNewDeployment", "cl", "sv", "", 0⟩
        (Except.ok none)).1 =
      [⟨"ecs", "POST", "/", updateTarget,
        AwsBody.updateService "cl" "sv" true
          (if 0 < (0 : Int) then some (0 : Int) else none)⟩] ∧
    execute (ε := Unit) (ρ := Unit) ⟨"otherOp", "cl", "sv", "", 0⟩ (Except.ok none) =
      ([], Except.ok [[]]) :=
  ⟨(execute_dispatch _ _).1 rfl, (execute_dispatch _ _).2.1 rfl,
    (execute_dispatch _ _).2.2 (by decide) (by decide)⟩

/-- Claim C4: every request `execute` issues has a body of one of exactly
three shapes — a `DescribeServices` body, an `UpdateService` body without
`desiredCount`, or an `UpdateService` body with a positive `desiredCount`
(both `UpdateService` shapes carry `forceNewDeployment = true`); and each of
the three shapes is realised by some parameters. -/
theorem execute_body_shapes {ε ρ : Type} (p : ExecParams) (resp : Except ε (Option ρ)) :
    (∀ req ∈ (execute p resp).1,
      (∃ cl ss, req.body = AwsBody.describeServices cl ss) ∨
      (∃ cl sv, req.body = AwsBody.updateService cl sv true none) ∨
      (∃ cl sv d, 0 < d ∧ req.body = AwsBody.updateService cl sv true (some d))) ∧
    (execute (ε := ε) (ρ := ρ) ⟨"describeServices", "cl", "sv", "a", 0⟩ resp).1.map
        AwsRequest.body = [AwsBody.describeServices "cl" ["a"]] ∧
    (execute (ε := ε) (ρ := ρ) ⟨"forceNewDeployment", "cl", "sv", "", 0⟩ resp).1.map
        AwsRequest.body = [AwsBody.updateService "cl" "sv" true none] ∧
    (execute (ε := ε) (ρ := ρ) ⟨"forceNewDeployment", "cl", "sv", "", 3⟩ resp).1.map
        AwsRequest.body = [AwsBody.updateService "cl" "sv" true (some 3)] := by
  refine ⟨?_, ?_, ?_, ?_⟩
  · intro req hreq
    rw [execute_fst] at hreq
    by_cases h1 : p.operation = "describeServices"
    · rw [if_pos h1] at hreq
      simp only [List.mem_singleton] at hreq
      subst hreq
      exact Or.inl ⟨p.clusterName, splitServices p.serviceNames, rfl⟩
    · rw [if_neg h1] at hreq
      by_cases h2 : p.operation = "forceNewDeployment"
      · rw [if_pos h2] at hreq
        simp only [List.mem_singleton] at hreq
        subst hreq
        by_cases hd : 0 < p.desiredCount
        · exact Or.inr (Or.inr ⟨p.clusterName, p.serviceName, p.desiredCount, hd,
            by simp [hd]⟩)
        · exact Or.inr (Or.inl ⟨p.clusterName, p.serviceName, by simp [hd]⟩)
      · rw [if_neg h2] at hreq
        simp at hreq
  · rw [execute_fst]
    rfl
  · rw [execute_fst]
    rfl
  · rw [execute_fst]
    rfl

theorem execute_body_shapes_witness :
    ((∃ cl ss,
        (AwsRequest.mk "ecs" "POST" "/" describeTarget
          (AwsBody.describeServices "cl" ["a"])).body = AwsBody.describeServices cl ss) ∨
      (∃ cl sv,
        (AwsRequest.mk "ecs" "POST" "/" describeTarget
          (AwsBody.describeServices "cl" ["a"])).body = AwsBody.updateService cl sv true none) ∨
      (∃ cl sv d, 0 < d ∧
        (AwsRequest.mk "ecs" "POST" "/" describeTarget
          (AwsBody.describeServices "cl" ["a"])).body =
            AwsBody.updateService cl sv true (some d))) ∧
    (execute (ε := Unit) (ρ := Unit) ⟨"forceNewDeployment", "cl", "sv", "", 3⟩
        (Except.ok none)).1.map AwsRequest.body =
      [AwsBody.updateService "cl" "sv" true (some 3)] :=
  ⟨(execute_body_shapes (ε := Unit) (ρ := Unit)
      ⟨"describeServices", "cl", "sv", "a", 0⟩ (Except.ok none)).1
      (AwsRequest.mk "ecs" "POST" "/" describeTarget
        (AwsBody.describeServices "cl" ["a"])) (by decide),
    (execute_body_shapes (ε := Unit) (ρ := Unit)
      ⟨"forceNewDeployment", "cl", "sv", "", 3⟩ (Except.ok none)).2.2.2⟩

/-- Claim C5: no local error handling exists.  If the `awsApiRequest` call
rejects with `e`, then: `execute` (for either dispatched operation) returns
exactly `Except.error e`, unchanged and with no output item; `getClusters`
fails with that error; and `getServices` (non-empty cluster, rejection at any
point of the run — after any prefix of pages that keep the loop going) fails
with that error.  No catch, transformation, or retry occurs. -/
theorem awsApiRequest_errors_propagate {ε ρ : Type} (e : ε) :
    (∀ p : ExecParams,
      p.operation = "describeServices" ∨ p.operation = "forceNewDeployment" →
      (execute (ρ := ρ) p (Except.error e)).2 = Except.error e) ∧
    (∀ rest : List (Except ε ListClustersResponse),
      (getClusters (Except.error e :: rest)).2 = Except.error (RunError.api e)) ∧
    (∀ (c : String) (good : List ListServicesResponse)
      (rest : List (Except ε ListServicesResponse)),
      c ≠ "" → continuing good = true →
      (getServices c (good.map Except.ok ++ Except.error e :: rest)).2 =
        Except.error (RunError.api e)) := by
  refine ⟨?_, ?_, ?_⟩
  · rintro p (hop | hop) <;> simp [execute, hop]
  · intro rest
    rfl
  · intro c good rest hc hgood
    cases good with
    | nil => simp [getServices, hc]
    | cons p good =>
      obtain ⟨pa, pt⟩ := p
      rw [continuing] at hgood
      simp only [Bool.and_eq_true, Option.isSome_iff_exists] at hgood
      obtain ⟨⟨⟨arns, harns⟩, tok, htok⟩, hgood⟩ := hgood
      subst harns htok
      have hloop := servicesLoop_error c tok e good rest hgood
      simp [getServices, hc, hloop]

theorem awsApiRequest_errors_propagate_witness :
    (execute (ρ := Unit) ⟨"describeServices", "cl", "sv", "", 0⟩
        (Except.error 7)).2 = Except.error 7 ∧
    (getClusters (Except.error 7 :: ([] : List (Except Nat ListClustersResponse)))).2 =
      Except.error (RunError.api 7) ∧
    (getServices "cl"
        ([(⟨some ["a"], some "t"⟩ : ListServicesResponse)].map Except.ok ++
          Except.error 7 :: [])).2 = Except.error (RunError.api 7) :=
  ⟨(awsApiRequest_errors_propagate (ρ := Unit) 7).1 _ (Or.inl rfl),
    (awsApiRequest_errors_propagate (ρ := Unit) 7).2.1 [],
    (awsApiRequest_errors_propagate (ρ := Unit) 7).2.2 "cl" _ [] (by decide) rfl⟩

/-- Claim C6: for both dispatched operations, whenever `awsApiRequest`
resolves to a truthy response object `r`, `execute` returns exactly one
output item, whose `json` field is `r` unmodified and whose `pairedItem` is
item 0. -/
theorem execute_truthy_passthrough {ε ρ : Type} (p : ExecParams) (r : ρ)
    (hop : p.operation = "describeServices" ∨ p.operation = "forceNewDeployment") :
    (execute (ε := ε) p (Except.ok (some r))).2 =
      Except.ok [[{ json := r, pairedItem := 0 }]] := by
  rcases hop with hop | hop <;> simp [execute, hop]

theorem execute_truthy_passthrough_witness :
    (execute (ε := Unit) ⟨"forceNewDeployment", "cl", "sv", "", 0⟩
        (Except.ok (some 42))).2 =
      Except.ok [[{ json := 42, pairedItem := 0 }]] :=
  execute_truthy_passthrough _ 42 (Or.inr rfl)

/-- Claim C7: `execute` is stateless and deterministic.  In the embedding it
is a pure function of the node parameters and the `awsApiRequest` result, so
two runs with identical inputs give identical outputs; and in a session of
several runs the i-th output is exactly the single-run result of the i-th
input — no state flows between calls. -/
theorem execute_stateless_deterministic {ε ρ : Type} :
    (∀ (calls : List (ExecParams × Except ε (Option ρ))) (i : Nat),
      (runSession calls)[i]? = (calls[i]?).map (fun call => execute call.1 call.2)) ∧
    (∀ (p₁ p₂ : ExecParams) (r₁ r₂ : Except ε (Option ρ)),
      p₁ = p₂ → r₁ = r₂ → execute p₁ r₁ = execute p₂ r₂) := by
  constructor
  · intro calls i
    simp [runSession]
  · intro p₁ p₂ r₁ r₂ h1 h2
    rw [h1, h2]

theorem execute_stateless_deterministic_witness :
    (runSession (ε := Unit) (ρ := Unit)
        [(⟨"describeServices", "cl", "sv", "", 0⟩, Except.ok none)])[0]? =
      ([((⟨"describeServices", "cl", "sv", "", 0⟩ : ExecParams),
          (Except.ok none : Except Unit (Option Unit)))][0]?).map
        (fun call => execute call.1 call.2) ∧
    execute (ε := Unit) (ρ := Unit) ⟨"describeServices", "cl", "sv", "", 0⟩
        (Except.ok none) =
      execute ⟨"describeServices", "cl", "sv", "", 0⟩ (Except.ok none) :=
  ⟨(execute_stateless_deterministic).1 _ 0,
    (execute_stateless_deterministic).2 _ _ _ _ rfl rfl⟩

/-- Claim C8: the `services` array of the `DescribeServices` body is exactly
the comma-separated segments of the `serviceNames` parameter (`splitComma`
splits at every comma and joins back to the input), each trimmed, with the
empty segments dropped, in their original order; every element is non-empty;
and no maximum of 10 services is enforced (11 comma-separated names all reach
the body) despite the UI description saying max 10. -/
theorem describeServices_services_split {ε ρ : Type} (x : String) (p : ExecParams)
    (resp : Except ε (Option ρ)) (hop : p.operation = "describeServices") :
    joinComma (splitComma x.toList) = x.toList ∧
    (∀ seg ∈ splitComma x.toList, ',' ∉ seg) ∧
    splitServices x =
      ((splitComma x.toList).map (fun cs => String.mk (trimChars cs))).filter
        (fun s => s ≠ "") ∧
    (∀ s ∈ splitServices x, s ≠ "") ∧
    (execute p resp).1 =
      [⟨"ecs", "POST", "/", describeTarget,
        AwsBody.describeServices p.clusterName (splitServices p.serviceNames)⟩] ∧
    (splitServices "s1,s2,s3,s4,s5,s6,s7,s8,s9,s10,s11").length = 11 := by
  refine ⟨joinComma_splitComma x.toList, splitComma_no_comma x.toList, rfl, ?_, ?_,
    by decide⟩
  · intro s hs
    simp only [splitServices, List.mem_filter, decide_eq_true_eq] at hs
    exact hs.2
  · rw [execute_fst, if_pos hop]

theorem describeServices_services_split_witness :
    (execute (ε := Unit) (ρ := Unit)
        ⟨"describeServices", "cl", "sv", " a ,,b ", 0⟩ (Except.ok none)).1 =
      [⟨"ecs", "POST", "/", describeTarget,
        AwsBody.describeServices "cl" (splitServices " a ,,b ")⟩] ∧
    (splitServices "s1,s2,s3,s4,s5,s6,s7,s8,s9,s10,s11").length = 11 :=
  ⟨(describeServices_services_split (ε := Unit) (ρ := Unit) " a ,,b "
      ⟨"describeServices", "cl", "sv", " a ,,b ", 0⟩ (Except.ok none) rfl).2.2.2.2.1,
    (describeServices_services_split (ε := Unit) (ρ := Unit) " a ,,b "
      ⟨"describeServices", "cl", "sv", " a ,,b ", 0⟩ (Except.ok none) rfl).2.2.2.2.2⟩

/-- Claim C9: the `UpdateService` body always carries
`forceNewDeployment = true`, and carries the `desiredCount` field iff the
`desiredCount` parameter is strictly positive: a parameter of `0` — not only
the documented `-1` — omits the field and so leaves the current desired
count unchanged. -/
theorem forceNewDeployment_body {ε ρ : Type} (p : ExecParams)
    (resp : Except ε (Option ρ)) (hop : p.operation = "forceNewDeployment") :
    (execute p resp).1 =
      [⟨"ecs", "POST", "/", updateTarget,
        AwsBody.updateService p.clusterName p.serviceName true
          (if 0 < p.desiredCount then some p.desiredCount else none)⟩] ∧
    (∀ d : Int,
      (if 0 < p.desiredCount then some p.desiredCount else none) = some d ↔
        0 < p.desiredCount ∧ d = p.desiredCount) ∧
    ((if 0 < p.desiredCount then some p.desiredCount else none) = none ↔
      p.desiredCount ≤ 0) := by
  refine ⟨?_, ?_, ?_⟩
  · rw [execute_fst, if_neg (by rw [hop]; decide), if_pos hop]
  · intro d
    by_cases hd : 0 < p.desiredCount <;> simp [hd] <;> omega
  · by_cases hd : 0 < p.desiredCount <;> simp [hd] <;> try omega

theorem forceNewDeployment_body_witness :
    (execute (ε := Unit) (ρ := Unit) ⟨"forceNewDeployment", "cl", "sv", "", 0⟩
        (Except.ok none)).1 =
      [⟨"ecs", "POST", "/", updateTarget,
        AwsBody.updateService "cl" "sv" true
          (if 0 < (0 : Int) then some (0 : Int) else none)⟩] ∧
    ((if 0 < (0 : Int) then some (0 : Int) else none) = none ↔ (0 : Int) ≤ 0) :=
  ⟨(forceNewDeployment_body (ε := Unit) (ρ := Unit)
      ⟨"forceNewDeployment", "cl", "sv", "", 0⟩ (Except.ok none) rfl).1,
    (forceNewDeployment_body (ε := Unit) (ρ := Unit)
      ⟨"forceNewDeployment", "cl", "sv", "", 0⟩ (Except.ok none) rfl).2.2⟩

/-- Claim C10: `getServices` returns the empty list (issuing no request) for
an empty cluster name, and returns the empty list when the first response
has no `serviceArns` field — even if that response carries a `nextToken`;
but inside the pagination loop a page without `serviceArns` is accessed
unguarded and raises a `TypeError`; and under the precondition that every
page of the run has a `serviceArns` field (`chainOk`), the run is total, the
result an `Except.ok`. -/
theorem getServices_guards {ε : Type} :
    (∀ resps : List (Except ε ListServicesResponse),
      getServices "" resps = ([], Except.ok [])) ∧
    (∀ (c : String) (r : ListServicesResponse)
      (rs : List (Except ε ListServicesResponse)),
      c ≠ "" → r.serviceArns = none →
      getServices c (Except.ok r :: rs) = ([⟨c, 50, none⟩], Except.ok [])) ∧
    (∀ (c t : String) (q : ListServicesResponse)
      (rs : List (Except ε ListServicesResponse)),
      q.serviceArns = none →
      servicesLoop c t (Except.ok q :: rs) =
        ([⟨c, 50, some t⟩], Except.error RunError.jsTypeError)) ∧
    (∀ (c : String) (ps : List ListServicesResponse), c ≠ "" → chainOk ps = true →
      ∃ opts, (getServices (ε := ε) c (ps.map Except.ok)).2 = Except.ok opts) := by
  refine ⟨?_, ?_, ?_, ?_⟩
  · intro resps
    simp [getServices]
  · intro c r rs hc hr
    simp [getServices, hc, hr]
  · intro c t q rs hq
    simp [servicesLoop, hq]
  · intro c ps hc h
    refine ⟨(allArns ps).map mkOption, ?_⟩
    have h2 := getServices_chain (ε := ε) c ps [] hc h
    rw [List.append_nil] at h2
    rw [h2]

theorem getServices_guards_witness :
    getServices (ε := Unit) "" [] = ([], Except.ok []) ∧
    getServices (ε := Unit) "c" [Except.ok ⟨none, some "t"⟩] =
      ([⟨"c", 50, none⟩], Except.ok []) ∧
    servicesLoop (ε := Unit) "c" "t" [Except.ok ⟨none, none⟩] =
      ([⟨"c", 50, some "t"⟩], Except.error RunError.jsTypeError) ∧
    ∃ opts,
      (getServices (ε := Unit) "c"
        ([(⟨some ["a"], none⟩ : ListServicesResponse)].map Except.ok)).2 =
        Except.ok opts :=
  ⟨(getServices_guards (ε := Unit)).1 [],
    (getServices_guards (ε := Unit)).2.1 "c" _ [] (by decide) rfl,
    (getServices_guards (ε := Unit)).2.2.1 "c" "t" _ [] rfl,
    (getServices_guards (ε := Unit)).2.2.2 "c" _ (by decide) rfl⟩

end AwsEcsNode
